import Mathlib

/-!
Shallow embedding of the Catch matcher combinator core
(`include/internal/catch_matchers.h`).

A matcher is modelled as a tree. `prim` stands for a user-defined concrete
matcher (a `MatcherBase<T>` subclass) carrying its `match` predicate, its
`describe` text, an identifier used only to trace method invocations, and
its `m_cachedToString` field. `allOf`, `anyOf` and `notOf` stand for
`MatchAllOf`, `MatchAnyOf` and `MatchNotOf`, each carrying its sub-matchers
(the `m_matchers` tuple, resp. `m_matcher`) together with the node's own
`m_cachedToString` cache (`none` = not yet populated, as on a freshly
constructed `MatcherUntypedBase`).
-/

namespace CatchMatchers

inductive Matcher (α : Type) : Type where
  | prim  (id : Nat) (test : α → Bool) (descr : String) (cache : Option String)
  | allOf (ms : List (Matcher α)) (cache : Option String)
  | anyOf (ms : List (Matcher α)) (cache : Option String)
  | notOf (m : Matcher α) (cache : Option String)

variable {α : Type}

/-- The `m_cachedToString` field of a matcher node. -/
def cacheOf : Matcher α → Option String
  | .prim _ _ _ c => c
  | .allOf _ c => c
  | .anyOf _ c => c
  | .notOf _ c => c

/-- Overwrite the `m_cachedToString` field of a matcher node. -/
def setCache : Matcher α → Option String → Matcher α
  | .prim i t d _, c => .prim i t d c
  | .allOf ms _, c => .allOf ms c
  | .anyOf ms _, c => .anyOf ms c
  | .notOf m _, c => .notOf m c

mutual

/-- The `match` method, instrumented with the list of ids of the `prim`
matchers whose `match` is invoked, in invocation order. The Boolean
component and the control flow are exactly those of the source:
a `prim` evaluates its own predicate, `MatchAllOf::match` and
`MatchAnyOf::match` run `Iter<0>::match`, and `MatchNotOf::match`
returns `!m_matcher.match(v)`. -/
def matchTrace : Matcher α → α → Bool × List Nat
  | .prim i t _ _, v => (t v, [i])
  | .allOf ms _, v => matchTraceAll ms v
  | .anyOf ms _, v => matchTraceAny ms v
  | .notOf m _, v =>
      let r := matchTrace m v
      (!r.1, r.2)

/-- `MatchAllOf::Iter<I>::match`: if the current sub-matcher returns false,
stop with false; otherwise continue with the remaining sub-matchers.
`Iter<N>::match` returns true. -/
def matchTraceAll : List (Matcher α) → α → Bool × List Nat
  | [], _ => (true, [])
  | m :: ms, v =>
      let r := matchTrace m v
      if !r.1 then (false, r.2)
      else
        let rs := matchTraceAll ms v
        (rs.1, r.2 ++ rs.2)

/-- `MatchAnyOf::Iter<I>::match`: if the current sub-matcher returns true,
stop with true; otherwise continue with the remaining sub-matchers.
`Iter<N>::match` returns false. -/
def matchTraceAny : List (Matcher α) → α → Bool × List Nat
  | [], _ => (false, [])
  | m :: ms, v =>
      let r := matchTrace m v
      if r.1 then (true, r.2)
      else
        let rs := matchTraceAny ms v
        (rs.1, r.2 ++ rs.2)

end

/-- The Boolean verdict of the `match` method. -/
def matchM (m : Matcher α) (v : α) : Bool := (matchTrace m v).1

mutual

/-- The `describe` virtual method, instrumented: it returns the description
text, the matcher as it stands after the call (sub-matcher caches may have
been populated through their `toString`), and the list of ids of the `prim`
matchers whose `describe` is invoked during the call, in invocation order.
A `prim` returns its own text; `MatchAllOf::describe` and
`MatchAnyOf::describe` build `"( " + Iter<0>::describe + " )"`; and
`MatchNotOf::describe` returns `"not " + m_matcher.describe()`.
`describe` never touches the node's own `m_cachedToString`. -/
def describeRun : Matcher α → String × Matcher α × List Nat
  | .prim i t d c => (d, .prim i t d c, [i])
  | .allOf ms c =>
      let r := toStringList " and " ms
      ("( " ++ r.1 ++ " )", .allOf r.2.1 c, r.2.2)
  | .anyOf ms c =>
      let r := toStringList " or " ms
      ("( " ++ r.1 ++ " )", .anyOf r.2.1 c, r.2.2)
  | .notOf m c =>
      let r := describeRun m
      ("not " ++ r.1, .notOf r.2.1 c, r.2.2)

/-- `Iter<I>::describe` for `MatchAllOf` and `MatchAnyOf`: each sub-matcher
contributes its `toString()` text, with the separator (`" and "` / `" or "`)
written before every sub-matcher except the first. The body of the
sub-matcher's `toString()` call is inlined here (its out-of-line definition
is not part of the header; modelled from the spec: the first call triggers
`describe()` and stores the result, later calls return the stored text). -/
def toStringList (sep : String) : List (Matcher α) → String × List (Matcher α) × List Nat
  | [] => ("", [], [])
  | m :: ms =>
      let r :=
        match cacheOf m with
        | some s => (s, m, ([] : List Nat))
        | none =>
          let d := describeRun m
          (d.1, setCache d.2.1 (some d.1), d.2.2)
      match ms with
      | [] => (r.1, [r.2.1], r.2.2)
      | m2 :: ms2 =>
          let rs := toStringList sep (m2 :: ms2)
          (r.1 ++ sep ++ rs.1, r.2.1 :: rs.2.1, r.2.2 ++ rs.2.2)

end

/-- Modelled from the spec: `MatcherUntypedBase::toString` is declared in the
header but defined out of line, outside this file's sources. Per the spec it
is memoised: the first call triggers `describe()` and stores the result in
`m_cachedToString`; subsequent calls return the stored text without
re-invoking `describe()`. Instrumented like `describeRun`. -/
def toStringM (m : Matcher α) : String × Matcher α × List Nat :=
  match cacheOf m with
  | some s => (s, m, [])
  | none =>
    let r := describeRun m
    (r.1, setCache r.2.1 (some r.1), r.2.2)

/-- Is this matcher a `MatchAllOf` specialisation? This is what C++ overload
resolution inspects to pick the `MatchAllOf` friend `operator&&` overloads. -/
def isAllOf : Matcher α → Bool
  | .allOf _ _ => true
  | _ => false

/-- Is this matcher a `MatchAnyOf` specialisation? -/
def isAnyOf : Matcher α → Bool
  | .anyOf _ _ => true
  | _ => false

/-- The named factory `And(ms...)`: constructs `MatchAllOf<Ms...>(ms...)`
directly over the given sub-matchers, copied in unchanged (the new node's
own cache starts empty). No flattening. -/
def And (ms : List (Matcher α)) : Matcher α := .allOf ms none

/-- The named factory `Or(ms...)`: constructs `MatchAnyOf<Ms...>(ms...)`
directly over the given sub-matchers. No flattening. -/
def Or (ms : List (Matcher α)) : Matcher α := .anyOf ms none

/-- The named factory `Not(m)`: constructs `MatchNotOf<M>(m)`, storing `m`
unchanged. -/
def Not (m : Matcher α) : Matcher α := .notOf m none

/-- The `&&` operator surface as overload resolution actually disposes of
it; `none` models an ill-formed call. The well-formed cases: when the left
operand is a `MatchAllOf` and the right is not, the friend at lines 119-123
(declared and constructed types agree) builds a fresh flat `MatchAllOf`
from `tuple_cat(a.m_matchers, make_tuple(b))`; when neither operand is a
`MatchAllOf`, the generic `Impl::operator&&` (lines 236-241) returns
`And(m1, m2)`. The dead cases: with both operands `MatchAllOf`, the
pack-pack friend (lines 124-128) has an undeducible leading template
parameter `M`, so it is never viable, and the two crossed one-pack friends
make the call ambiguous; with only the right operand a `MatchAllOf`, the
friend at lines 115-118 is selected but declares return type
`MatchAllOf<Ms..., M>` while its body constructs `MatchAllOf<M, Ms...>`,
which has no conversion to it — ill-formed except in the degenerate corner
where every operand type coincides (a corner this untyped model does not
represent). -/
def opAnd : Matcher α → Matcher α → Option (Matcher α)
  | .allOf _ _, .allOf _ _ => none
  | .allOf as _, b => some (.allOf (as ++ [b]) none)
  | _, .allOf _ _ => none
  | a, b => some (.allOf [a, b] none)

/-- The `||` operator surface; `none` models an ill-formed call. Well
formed: `MatchAnyOf` on the left and not on the right uses the friend at
lines 166-170 (declared and constructed types agree) and flattens; neither
operand a `MatchAnyOf` uses the generic `Impl::operator||` (lines 243-248),
whose body is `Or(m1, m2)`. Dead: both operands `MatchAnyOf` is ambiguous
(the pack-pack friend at lines 171-175 has an undeducible `M`); only the
right operand a `MatchAnyOf` selects the friend at lines 162-165, whose
declared return type `MatchAnyOf<M, Ms..., M>` is arity-mismatched with the
constructed `MatchAnyOf<M, Ms...>` — ill-formed for every instantiation. -/
def opOr : Matcher α → Matcher α → Option (Matcher α)
  | .anyOf _ _, .anyOf _ _ => none
  | .anyOf as _, b => some (.anyOf (as ++ [b]) none)
  | _, .anyOf _ _ => none
  | a, b => some (.anyOf [a, b] none)

/-- The `!` operator surface: `Impl::operator!` body is `Not(m)`. -/
def opNot (m : Matcher α) : Matcher α := Not m

lemma opAnd_not_allOf (a b : Matcher α) (ha : isAllOf a = false) (hb : isAllOf b = false) :
    opAnd a b = some (.allOf [a, b] none) := by
  cases a <;> cases b <;> simp_all [isAllOf, opAnd]

lemma opAnd_left_allOf (as : List (Matcher α)) (k : Option String) (b : Matcher α)
    (hb : isAllOf b = false) :
    opAnd (.allOf as k) b = some (.allOf (as ++ [b]) none) := by
  cases b <;> simp_all [isAllOf, opAnd]

lemma opAnd_right_allOf (a : Matcher α) (bs : List (Matcher α)) (k : Option String) :
    opAnd a (.allOf bs k) = none := by
  cases a <;> rfl

lemma opOr_not_anyOf (a b : Matcher α) (ha : isAnyOf a = false) (hb : isAnyOf b = false) :
    opOr a b = some (.anyOf [a, b] none) := by
  cases a <;> cases b <;> simp_all [isAnyOf, opOr]

lemma opOr_left_anyOf (as : List (Matcher α)) (k : Option String) (b : Matcher α)
    (hb : isAnyOf b = false) :
    opOr (.anyOf as k) b = some (.anyOf (as ++ [b]) none) := by
  cases b <;> simp_all [isAnyOf, opOr]

lemma opOr_right_anyOf (a : Matcher α) (bs : List (Matcher α)) (k : Option String) :
    opOr a (.anyOf bs k) = none := by
  cases a <;> rfl

lemma fst_matchTraceAll (ms : List (Matcher α)) (v : α) :
    (matchTraceAll ms v).1 = ms.all (fun m => matchM m v) := by
  induction ms with
  | nil => rfl
  | cons m ms ih =>
      cases h : (matchTrace m v).1 <;> simp [matchTraceAll, matchM, h, ih]

lemma fst_matchTraceAny (ms : List (Matcher α)) (v : α) :
    (matchTraceAny ms v).1 = ms.any (fun m => matchM m v) := by
  induction ms with
  | nil => rfl
  | cons m ms ih =>
      cases h : (matchTrace m v).1 <;> simp [matchTraceAny, matchM, h, ih]

lemma matchTraceAll_shortCircuit (pre post : List (Matcher α)) (m : Matcher α) (v : α)
    (hpre : ∀ p ∈ pre, matchM p v = true) (hm : matchM m v = false) :
    matchTraceAll (pre ++ m :: post) v
      = (false, (pre.map (fun p => (matchTrace p v).2)).flatten ++ (matchTrace m v).2) := by
  induction pre with
  | nil =>
      have hm' : (matchTrace m v).1 = false := hm
      simp [matchTraceAll, hm']
  | cons p pre ih =>
      have hp : (matchTrace p v).1 = true := hpre p (by simp)
      have hrec := ih (fun q hq => hpre q (by simp [hq]))
      simp [matchTraceAll, hp, hrec, List.append_assoc]

lemma matchTraceAny_shortCircuit (pre post : List (Matcher α)) (m : Matcher α) (v : α)
    (hpre : ∀ p ∈ pre, matchM p v = false) (hm : matchM m v = true) :
    matchTraceAny (pre ++ m :: post) v
      = (true, (pre.map (fun p => (matchTrace p v).2)).flatten ++ (matchTrace m v).2) := by
  induction pre with
  | nil =>
      have hm' : (matchTrace m v).1 = true := hm
      simp [matchTraceAny, hm']
  | cons p pre ih =>
      have hp : (matchTrace p v).1 = false := hpre p (by simp)
      have hrec := ih (fun q hq => hpre q (by simp [hq]))
      simp [matchTraceAny, hp, hrec, List.append_assoc]

lemma matchM_allOf (ms : List (Matcher α)) (c : Option String) (v : α) :
    matchM (Matcher.allOf ms c) v = ms.all (fun m => matchM m v) :=
  fst_matchTraceAll ms v

lemma matchM_anyOf (ms : List (Matcher α)) (c : Option String) (v : α) :
    matchM (Matcher.anyOf ms c) v = ms.any (fun m => matchM m v) :=
  fst_matchTraceAny ms v

lemma matchM_opAnd (a b m2 : Matcher α) (v : α) (h : opAnd a b = some m2) :
    matchM m2 v = (matchM a v && matchM b v) := by
  cases a <;> cases b <;> simp only [opAnd, Option.some.injEq, reduceCtorEq] at h <;>
    subst h <;> simp [matchM_allOf, matchM_anyOf, List.all_append]

lemma matchM_opOr (a b m2 : Matcher α) (v : α) (h : opOr a b = some m2) :
    matchM m2 v = (matchM a v || matchM b v) := by
  cases a <;> cases b <;> simp only [opOr, Option.some.injEq, reduceCtorEq] at h <;>
    subst h <;> simp [matchM_allOf, matchM_anyOf, List.any_append]

/-- Spec-side formulation of the composite description body: the
sub-matcher texts joined by the connective, used to compare
`describe` against the format the spec states. -/
def specJoin (sep : String) : List String → String
  | [] => ""
  | [d] => d
  | d :: d2 :: ds => d ++ sep ++ specJoin sep (d2 :: ds)

lemma toStringList_single (sep : String) (m : Matcher α) :
    toStringList sep [m] = ((toStringM m).1, [(toStringM m).2.1], (toStringM m).2.2) := by
  cases hc : cacheOf m <;> simp [toStringList, toStringM, hc]

lemma toStringList_cons2 (sep : String) (m m2 : Matcher α) (ms : List (Matcher α)) :
    toStringList sep (m :: m2 :: ms)
      = ((toStringM m).1 ++ sep ++ (toStringList sep (m2 :: ms)).1,
         (toStringM m).2.1 :: (toStringList sep (m2 :: ms)).2.1,
         (toStringM m).2.2 ++ (toStringList sep (m2 :: ms)).2.2) := by
  cases hc : cacheOf m <;> simp [toStringList, toStringM, hc]

lemma toStringList_fst (sep : String) (ms : List (Matcher α)) :
    (toStringList sep ms).1 = specJoin sep (ms.map (fun m => (toStringM m).1)) := by
  induction ms with
  | nil => rfl
  | cons m ms ih =>
      cases ms with
      | nil => simp [toStringList_single, specJoin]
      | cons m2 ms2 => simp [toStringList_cons2, specJoin, ih]

lemma toStringList_snd (sep : String) (ms : List (Matcher α)) :
    (toStringList sep ms).2.1 = ms.map (fun m => (toStringM m).2.1) := by
  induction ms with
  | nil => rfl
  | cons m ms ih =>
      cases ms with
      | nil => simp [toStringList_single]
      | cons m2 ms2 => simp [toStringList_cons2, ← ih]

lemma cacheOf_setCache (m : Matcher α) (c : Option String) :
    cacheOf (setCache m c) = c := by
  cases m <;> rfl

lemma toStringM_cache (m : Matcher α) :
    cacheOf (toStringM m).2.1 = some (toStringM m).1 := by
  cases hc : cacheOf m <;> simp [toStringM, hc, cacheOf_setCache]

lemma toStringM_of_cache_some (m : Matcher α) (s : String) (h : cacheOf m = some s) :
    toStringM m = (s, m, []) := by
  simp [toStringM, h]

lemma toStringM_idem (m : Matcher α) :
    toStringM (toStringM m).2.1 = ((toStringM m).1, (toStringM m).2.1, []) :=
  toStringM_of_cache_some _ _ (toStringM_cache m)

lemma toStringList_rerun (sep : String) (ms : List (Matcher α)) :
    toStringList sep (ms.map (fun m => (toStringM m).2.1))
      = ((toStringList sep ms).1, (toStringList sep ms).2.1, []) := by
  induction ms with
  | nil => rfl
  | cons m ms ih =>
      cases ms with
      | nil => simp [toStringList_single, toStringM_idem]
      | cons m2 ms2 =>
          simp only [List.map_cons] at ih ⊢
          simp [toStringList_cons2, toStringM_idem, ih]

lemma describeRun_allOf (ms : List (Matcher α)) (c : Option String) :
    describeRun (Matcher.allOf ms c)
      = ("( " ++ (toStringList " and " ms).1 ++ " )",
         .allOf (toStringList " and " ms).2.1 c,
         (toStringList " and " ms).2.2) := rfl

lemma describeRun_anyOf (ms : List (Matcher α)) (c : Option String) :
    describeRun (Matcher.anyOf ms c)
      = ("( " ++ (toStringList " or " ms).1 ++ " )",
         .anyOf (toStringList " or " ms).2.1 c,
         (toStringList " or " ms).2.2) := rfl

/-- Concrete sample matcher used by the witnesses: `eqn i n` has trace id
`i` and matches exactly the naturals equal to `n`. -/
def eqn (i n : Nat) : Matcher Nat :=
  Matcher.prim i (fun v => v == n) ("equals " ++ toString n) none

/-- C1: `AllOf(m₁…mₙ).match(v)` returns true iff every `mᵢ.match(v)` does;
the empty conjunction matches every value; and evaluation short-circuits in
construction order: if every matcher of `pre` accepts `v` and `m` rejects
it, matching `AllOf(pre ++ [m] ++ post)` invokes exactly the matchers of
`pre` in order followed by `m`, and none of `post`. -/
theorem allOf_match_spec (α : Type) :
    (∀ (ms : List (Matcher α)) (c : Option String) (v : α),
        matchM (Matcher.allOf ms c) v = ms.all (fun m => matchM m v))
  ∧ (∀ (c : Option String) (v : α),
        matchM (Matcher.allOf ([] : List (Matcher α)) c) v = true)
  ∧ (∀ (pre post : List (Matcher α)) (m : Matcher α) (c : Option String) (v : α),
        (∀ p ∈ pre, matchM p v = true) → matchM m v = false →
        matchTrace (Matcher.allOf (pre ++ m :: post) c) v
          = (false, (pre.map (fun p => (matchTrace p v).2)).flatten ++ (matchTrace m v).2)) := by
  refine ⟨?_, ?_, ?_⟩
  · intro ms c v
    show (matchTraceAll ms v).1 = _
    exact fst_matchTraceAll ms v
  · intro c v
    rfl
  · intro pre post m c v hpre hm
    show matchTraceAll (pre ++ m :: post) v = _
    exact matchTraceAll_shortCircuit pre post m v hpre hm

theorem allOf_match_spec_witness :
    ((∀ p ∈ [eqn 0 5], matchM p 5 = true) ∧ matchM (eqn 1 9) 5 = false)
  ∧ matchTrace (Matcher.allOf [eqn 0 5, eqn 1 9, eqn 2 5] none) 5 = (false, [0, 1]) :=
  ⟨⟨by decide, by decide⟩,
    ((allOf_match_spec Nat).2.2 [eqn 0 5] [eqn 2 5] (eqn 1 9) none 5
        (by decide) (by decide)).trans (by decide)⟩

/-- C2: `AnyOf(m₁…mₙ).match(v)` returns true iff some `mᵢ.match(v)` does;
the empty disjunction matches no value; and evaluation short-circuits in
construction order: if every matcher of `pre` rejects `v` and `m` accepts
it, matching `AnyOf(pre ++ [m] ++ post)` invokes exactly the matchers of
`pre` in order followed by `m`, and none of `post`. -/
theorem anyOf_match_spec (α : Type) :
    (∀ (ms : List (Matcher α)) (c : Option String) (v : α),
        matchM (Matcher.anyOf ms c) v = ms.any (fun m => matchM m v))
  ∧ (∀ (c : Option String) (v : α),
        matchM (Matcher.anyOf ([] : List (Matcher α)) c) v = false)
  ∧ (∀ (pre post : List (Matcher α)) (m : Matcher α) (c : Option String) (v : α),
        (∀ p ∈ pre, matchM p v = false) → matchM m v = true →
        matchTrace (Matcher.anyOf (pre ++ m :: post) c) v
          = (true, (pre.map (fun p => (matchTrace p v).2)).flatten ++ (matchTrace m v).2)) := by
  refine ⟨?_, ?_, ?_⟩
  · intro ms c v
    show (matchTraceAny ms v).1 = _
    exact fst_matchTraceAny ms v
  · intro c v
    rfl
  · intro pre post m c v hpre hm
    show matchTraceAny (pre ++ m :: post) v = _
    exact matchTraceAny_shortCircuit pre post m v hpre hm

theorem anyOf_match_spec_witness :
    ((∀ p ∈ [eqn 0 5], matchM p 7 = false) ∧ matchM (eqn 1 7) 7 = true)
  ∧ matchTrace (Matcher.anyOf [eqn 0 5, eqn 1 7, eqn 2 7] none) 7 = (true, [0, 1]) :=
  ⟨⟨by decide, by decide⟩,
    ((anyOf_match_spec Nat).2.2 [eqn 0 5] [eqn 2 7] (eqn 1 7) none 7
        (by decide) (by decide)).trans (by decide)⟩

/-- C3 as stated fails on the code. What holds: `AllOf(a,b) && c` with `c`
not itself a `MatchAllOf` yields the flat `AllOf(a,b,c)` (symmetrically
`AnyOf(a,b) || c`), and combining an `AllOf` with an `AnyOf` keeps the
other combinator as a single opaque sub-matcher of the flat result. What
the claim also asserts but the code cannot do: `a && AllOf(b,c)` and
`a || AnyOf(b,c)` select the friend whose declared return type disagrees
with the value it constructs (for `||`, even in arity), and
`AllOf && AllOf` / `AnyOf || AnyOf` are ambiguous because the pack-pack
friend's leading template parameter is undeducible — those calls are
ill-formed, modelled here as `none`. -/
theorem operator_surface_flattening (α : Type) :
    (∀ (a b c : Matcher α) (k : Option String), isAllOf c = false →
        opAnd (Matcher.allOf [a, b] k) c = some (Matcher.allOf [a, b, c] none))
  ∧ (∀ (a b c : Matcher α) (k : Option String), isAnyOf c = false →
        opOr (Matcher.anyOf [a, b] k) c = some (Matcher.anyOf [a, b, c] none))
  ∧ (∀ (as bs : List (Matcher α)) (k k2 : Option String),
        opAnd (Matcher.allOf as k) (Matcher.anyOf bs k2)
          = some (Matcher.allOf (as ++ [Matcher.anyOf bs k2]) none)
      ∧ opOr (Matcher.anyOf as k) (Matcher.allOf bs k2)
          = some (Matcher.anyOf (as ++ [Matcher.allOf bs k2]) none))
  ∧ (∀ (a : Matcher α) (bs : List (Matcher α)) (k : Option String),
        opAnd a (Matcher.allOf bs k) = none)
  ∧ (∀ (a : Matcher α) (bs : List (Matcher α)) (k : Option String),
        opOr a (Matcher.anyOf bs k) = none) := by
  refine ⟨?_, ?_, fun as bs k k2 => ⟨rfl, rfl⟩,
    fun a bs k => opAnd_right_allOf a bs k, fun a bs k => opOr_right_anyOf a bs k⟩
  · intro a b c k h
    exact opAnd_left_allOf [a, b] k c h
  · intro a b c k h
    exact opOr_left_anyOf [a, b] k c h

theorem operator_surface_flattening_witness :
    isAllOf (eqn 2 3) = false
  ∧ opAnd (Matcher.allOf [eqn 0 1, eqn 1 2] none) (eqn 2 3)
      = some (Matcher.allOf [eqn 0 1, eqn 1 2, eqn 2 3] none) :=
  ⟨by decide,
    (operator_surface_flattening Nat).1 (eqn 0 1) (eqn 1 2) (eqn 2 3) none (by decide)⟩

/-- C4 as stated fails on the code: the two groupings are not
interchangeable, because the right-grouped composition does not exist. For
plain matchers `a`, `b`, `c`, the left grouping `(a && b) && c` composes
and yields the flat `AllOf(a,b,c)`, but `a && (b && c)` applies `&&` with a
`MatchAllOf` on the right only, an ill-formed call (`none`); likewise for
`||`, where the right-grouped form is ill-formed for every instantiation. -/
theorem regrouping_status (α : Type) :
    (∀ a b c : Matcher α, isAllOf a = false → isAllOf b = false → isAllOf c = false →
        (opAnd a b).bind (fun x => opAnd x c) = some (Matcher.allOf [a, b, c] none)
      ∧ (opAnd b c).bind (fun x => opAnd a x) = none)
  ∧ (∀ a b c : Matcher α, isAnyOf a = false → isAnyOf b = false → isAnyOf c = false →
        (opOr a b).bind (fun x => opOr x c) = some (Matcher.anyOf [a, b, c] none)
      ∧ (opOr b c).bind (fun x => opOr a x) = none) := by
  constructor
  · intro a b c ha hb hc
    rw [opAnd_not_allOf a b ha hb, opAnd_not_allOf b c hb hc]
    exact ⟨by rw [Option.some_bind]; exact opAnd_left_allOf [a, b] none c hc,
      by rw [Option.some_bind, opAnd_right_allOf]⟩
  · intro a b c ha hb hc
    rw [opOr_not_anyOf a b ha hb, opOr_not_anyOf b c hb hc]
    exact ⟨by rw [Option.some_bind]; exact opOr_left_anyOf [a, b] none c hc,
      by rw [Option.some_bind, opOr_right_anyOf]⟩

theorem regrouping_status_witness :
    (isAllOf (eqn 0 1) = false ∧ isAllOf (eqn 1 2) = false ∧ isAllOf (eqn 2 3) = false)
  ∧ (opAnd (eqn 0 1) (eqn 1 2)).bind (fun x => opAnd x (eqn 2 3))
      = some (Matcher.allOf [eqn 0 1, eqn 1 2, eqn 2 3] none)
  ∧ (opAnd (eqn 1 2) (eqn 2 3)).bind (fun x => opAnd (eqn 0 1) x) = none :=
  ⟨⟨by decide, by decide, by decide⟩,
    ((regrouping_status Nat).1 (eqn 0 1) (eqn 1 2) (eqn 2 3)
        (by decide) (by decide) (by decide)).1,
    ((regrouping_status Nat).1 (eqn 0 1) (eqn 1 2) (eqn 2 3)
        (by decide) (by decide) (by decide)).2⟩

/-- C5: `NotOf(m).match(v)` is the negation of `m.match(v)`; its
description is `"not "` concatenated with `m.describe()`, with nothing
else added; and double negation is not simplified: `NotOf(NotOf(m))`
matches exactly like `m` and describes as `"not not "` followed by
`m.describe()`. -/
theorem notOf_spec (α : Type) :
    (∀ (m : Matcher α) (c : Option String) (v : α),
        matchM (Matcher.notOf m c) v = !(matchM m v))
  ∧ (∀ (m : Matcher α) (c : Option String),
        (describeRun (Matcher.notOf m c)).1 = "not " ++ (describeRun m).1)
  ∧ (∀ (m : Matcher α) (c c2 : Option String) (v : α),
        matchM (Matcher.notOf (Matcher.notOf m c2) c) v = matchM m v)
  ∧ (∀ (m : Matcher α) (c c2 : Option String),
        (describeRun (Matcher.notOf (Matcher.notOf m c2) c)).1
          = "not not " ++ (describeRun m).1) := by
  refine ⟨fun m c v => rfl, fun m c => rfl,
    fun m c c2 v => by simp [matchM, matchTrace], fun m c c2 => ?_⟩
  have h : ("not " : String) ++ "not " = "not not " := rfl
  show "not " ++ ("not " ++ (describeRun m).1) = _
  rw [← String.append_assoc, h]

/-- C6: `AllOf` describes as `"( d₁ and … and dₙ )"` and `AnyOf` as
`"( d₁ or … or dₙ )"`, where `dᵢ` is the i-th sub-matcher's `toString()`
text; the empty conjunction and disjunction both describe as `"(  )"`. -/
theorem describe_format (α : Type) :
    (∀ (ms : List (Matcher α)) (c : Option String),
        (describeRun (Matcher.allOf ms c)).1
          = "( " ++ specJoin " and " (ms.map (fun m => (toStringM m).1)) ++ " )")
  ∧ (∀ (ms : List (Matcher α)) (c : Option String),
        (describeRun (Matcher.anyOf ms c)).1
          = "( " ++ specJoin " or " (ms.map (fun m => (toStringM m).1)) ++ " )")
  ∧ (∀ c : Option String,
        (describeRun (Matcher.allOf ([] : List (Matcher α)) c)).1 = "(  )")
  ∧ (∀ c : Option String,
        (describeRun (Matcher.anyOf ([] : List (Matcher α)) c)).1 = "(  )") := by
  refine ⟨?_, ?_, fun c => rfl, fun c => rfl⟩
  · intro ms c
    show "( " ++ (toStringList " and " ms).1 ++ " )" = _
    rw [toStringList_fst]
  · intro ms c
    show "( " ++ (toStringList " or " ms).1 ++ " )" = _
    rw [toStringList_fst]

/-- C7 as stated is false for `MatchNotOf`: its `describe` obtains the
sub-matcher's text via the sub-matcher's `describe()`
(`"not " + m_matcher.describe()`), not via `toString()`. Concretely, for a
sub-matcher whose cache is already populated, `toString()` would perform no
`describe` invocation at all, yet assembling `NotOf`'s description still
invokes the sub-matcher's `describe`, and does so again on a second
description request. -/
theorem notOf_describe_uses_describe :
    (toStringM (Matcher.prim 0 (fun (_ : Nat) => true) "p" (some "p"))).2.2 = []
  ∧ (describeRun (Matcher.notOf
        (Matcher.prim 0 (fun (_ : Nat) => true) "p" (some "p")) none)).2.2 = [0]
  ∧ (describeRun ((describeRun (Matcher.notOf
        (Matcher.prim 0 (fun (_ : Nat) => true) "p" (some "p")) none)).2.1)).2.2 = [0] :=
  ⟨by decide, by decide, by decide⟩

/-- C7 amended: `AllOf` and `AnyOf` obtain each sub-matcher's text through
the sub-matcher's `toString()`, so requesting the combinator's description
a second time re-invokes no sub-matcher's `describe` and yields the same
text; `NotOf` instead calls its sub-matcher's `describe()` directly, so the
sub-matcher's `describe` invocations during a `NotOf` description are
exactly those of describing the sub-matcher itself, on every request. -/
theorem describe_subterm_calls (α : Type) :
    (∀ (ms : List (Matcher α)) (c : Option String),
        (describeRun ((describeRun (Matcher.allOf ms c)).2.1)).1
            = (describeRun (Matcher.allOf ms c)).1
      ∧ (describeRun ((describeRun (Matcher.allOf ms c)).2.1)).2.2 = [])
  ∧ (∀ (ms : List (Matcher α)) (c : Option String),
        (describeRun ((describeRun (Matcher.anyOf ms c)).2.1)).1
            = (describeRun (Matcher.anyOf ms c)).1
      ∧ (describeRun ((describeRun (Matcher.anyOf ms c)).2.1)).2.2 = [])
  ∧ (∀ (m : Matcher α) (c : Option String),
        (describeRun (Matcher.notOf m c)).2.2 = (describeRun m).2.2) := by
  refine ⟨?_, ?_, fun m c => rfl⟩
  · intro ms c
    refine ⟨?_, ?_⟩ <;>
      simp [describeRun_allOf, toStringList_snd, toStringList_rerun]
  · intro ms c
    refine ⟨?_, ?_⟩ <;>
      simp [describeRun_anyOf, toStringList_snd, toStringList_rerun]

/-- C8 (toString body modelled from the spec, its out-of-line definition
not being among the sources): `toString()` equals `describe()`'s text on
first access, and a repeated call returns the stored text with the same
matcher state and no further `describe` invocation, so k calls behave like
one. -/
theorem toString_memoised (α : Type) :
    (∀ m : Matcher α, cacheOf m = none → (toStringM m).1 = (describeRun m).1)
  ∧ (∀ m : Matcher α,
        toStringM (toStringM m).2.1
          = ((toStringM m).1, (toStringM m).2.1, ([] : List Nat))) := by
  constructor
  · intro m h
    simp [toStringM, h]
  · exact fun m => toStringM_idem m

theorem toString_memoised_witness :
    cacheOf (eqn 0 5) = none ∧ (toStringM (eqn 0 5)).1 = (describeRun (eqn 0 5)).1 :=
  ⟨by decide, (toString_memoised Nat).1 (eqn 0 5) (by decide)⟩

/-- C9: the named factories `And` and `Or` build the combinator directly
over exactly the given sub-matchers, without flattening: an `AllOf` or
`AnyOf` argument stays a single opaque sub-matcher, so `And(AllOf(a,b), c)`
is a two-element conjunction whose first element is the nested `AllOf(a,b)`
and is never the flat `AllOf(a,b,c)`. -/
theorem named_factories_exact (α : Type) :
    (∀ ms : List (Matcher α),
        And ms = Matcher.allOf ms none ∧ Or ms = Matcher.anyOf ms none)
  ∧ (∀ (a b c : Matcher α) (k : Option String),
        And [Matcher.allOf [a, b] k, c]
            = Matcher.allOf [Matcher.allOf [a, b] k, c] none
      ∧ And [Matcher.allOf [a, b] k, c] ≠ Matcher.allOf [a, b, c] none)
  ∧ (∀ (a b c : Matcher α) (k : Option String),
        Or [Matcher.anyOf [a, b] k, c]
            = Matcher.anyOf [Matcher.anyOf [a, b] k, c] none
      ∧ Or [Matcher.anyOf [a, b] k, c] ≠ Matcher.anyOf [a, b, c] none) := by
  refine ⟨fun ms => ⟨rfl, rfl⟩, fun a b c k => ⟨rfl, fun h => ?_⟩,
    fun a b c k => ⟨rfl, fun h => ?_⟩⟩
  · simp [And] at h
  · simp [Or] at h

/-- C10: composition never mutates the operands. Every composition the
source can perform embeds the operands unchanged (caches included) into a
fresh combinator node — the factories and the non-flattening operator cases
store the operands verbatim as the sub-matchers, and the flattening case
stores the left operand's sub-matchers and the right operand verbatim — and
whenever a composition exists, its verdict on any value is computed from
the operands' own unchanged verdicts. -/
theorem compose_frame (α : Type) :
    (∀ a b : Matcher α, isAllOf a = false → isAllOf b = false →
        opAnd a b = some (Matcher.allOf [a, b] none))
  ∧ (∀ a b : Matcher α, isAnyOf a = false → isAnyOf b = false →
        opOr a b = some (Matcher.anyOf [a, b] none))
  ∧ (∀ m : Matcher α, opNot m = Matcher.notOf m none ∧ Not m = Matcher.notOf m none)
  ∧ (∀ ms : List (Matcher α),
        And ms = Matcher.allOf ms none ∧ Or ms = Matcher.anyOf ms none)
  ∧ (∀ (as : List (Matcher α)) (k : Option String) (b : Matcher α), isAllOf b = false →
        opAnd (Matcher.allOf as k) b = some (Matcher.allOf (as ++ [b]) none))
  ∧ (∀ (a b m2 : Matcher α) (v : α), opAnd a b = some m2 →
        matchM m2 v = (matchM a v && matchM b v))
  ∧ (∀ (a b m2 : Matcher α) (v : α), opOr a b = some m2 →
        matchM m2 v = (matchM a v || matchM b v))
  ∧ (∀ (a : Matcher α) (v : α), matchM (opNot a) v = !(matchM a v)) := by
  exact ⟨fun a b ha hb => opAnd_not_allOf a b ha hb,
    fun a b ha hb => opOr_not_anyOf a b ha hb,
    fun m => ⟨rfl, rfl⟩, fun ms => ⟨rfl, rfl⟩,
    fun as k b hb => opAnd_left_allOf as k b hb,
    fun a b m2 v h => matchM_opAnd a b m2 v h,
    fun a b m2 v h => matchM_opOr a b m2 v h,
    fun a v => rfl⟩

theorem compose_frame_witness :
    (isAllOf (eqn 0 1) = false ∧ isAllOf (eqn 1 2) = false)
  ∧ opAnd (eqn 0 1) (eqn 1 2) = some (Matcher.allOf [eqn 0 1, eqn 1 2] none)
  ∧ matchM (Matcher.allOf [eqn 0 1, eqn 1 2] none) 1
      = (matchM (eqn 0 1) 1 && matchM (eqn 1 2) 1) :=
  ⟨⟨by decide, by decide⟩,
    (compose_frame Nat).1 (eqn 0 1) (eqn 1 2) (by decide) (by decide),
    (compose_frame Nat).2.2.2.2.2.1 (eqn 0 1) (eqn 1 2)
      (Matcher.allOf [eqn 0 1, eqn 1 2] none) 1 rfl⟩

end CatchMatchers
